import Mathlib

/-!
Verification of the hierarchical-retriever repository against its
natural-language specification.

The development shallowly embeds the Python sources:
  * `app/retrievers.py`  — `HierarchicalRetriever` (legacy, two stores) and
    `MetadataHierarchicalRetriever` (single store with `type` metadata);
  * `app/embeddings.py`  — `validate_file` and `process_document`;
  * `app/metadata_utils.py` — `get_document_chunks`, `reconstruct_document`.

Metadata dictionaries become association lists over a small value type,
the vector store becomes a record of search functions (the external
capability of spec §6), and each retrieval routine is instrumented to also
return the list of store calls it issues, so that frame conditions
("only read-only searches", "no fine search scoped to a null source")
are statable.  Distance scores, which the code only copies and never
computes with, are modelled as rationals.
-/

namespace HierRet

/-- A Python metadata value as used by this code base: strings
(`source`, `type`), integers (`chunk_index`), floats (scores, modelled
as rationals since the code only stores and copies them), or `None`. -/
inductive MVal where
  | s (v : String)
  | i (v : Int)
  | q (v : ℚ)
  | null
deriving DecidableEq, Repr

/-- Python truthiness of a metadata value (`if doc_id:`):
`None`, `""`, `0` are falsy, everything else truthy. -/
def MVal.truthy : MVal → Bool
  | .s v => v ≠ ""
  | .i v => v ≠ 0
  | .q v => v ≠ 0
  | .null => false

/-- A metadata dictionary, as an association list (insertion order kept,
keys unique in all states the code builds). -/
abbrev Metadata := List (String × MVal)

/-- `md.get(k)`: first binding of `k`, `None` (`MVal.null`) when absent. -/
def getMeta (md : Metadata) (k : String) : MVal :=
  match md.find? (fun p => p.1 == k) with
  | some p => p.2
  | none => MVal.null

/-- `md[k] = v`: replace the first binding of `k` in place, or append. -/
def setMeta : Metadata → String → MVal → Metadata
  | [], k, v => [(k, v)]
  | (k', v') :: rest, k, v =>
      if k' == k then (k, v) :: rest else (k', v') :: setMeta rest k v

/-- A langchain `Document`: page content plus metadata. -/
structure Doc where
  page_content : String
  metadata : Metadata
deriving DecidableEq, Repr

/-- The vector-store capability (spec §6): similarity search with an
optional metadata filter, with or without scores.  Lower score = closer. -/
structure VectorStore where
  similarity_search : String → Nat → Option Metadata → List Doc
  similarity_search_with_score : String → Nat → Metadata → List (Doc × ℚ)

/-- One call issued to a vector store.  Retrieval code is instrumented to
return its call trace so read-only/frame claims are statable. -/
inductive StoreCall where
  | search (query : String) (k : Nat) (filter : Option Metadata)
  | searchWithScore (query : String) (k : Nat) (filter : Metadata)
  | addDocuments (docs : List Doc)
deriving DecidableEq, Repr

/-- A store call is read-only iff it is a similarity search. -/
def StoreCall.isReadOnly : StoreCall → Bool
  | .search _ _ _ => true
  | .searchWithScore _ _ _ => true
  | .addDocuments _ => false

namespace MetadataHierarchicalRetriever

/-- The coarse-stage filter `{"type": "summary"}`
(`retrievers.py`, line 63). -/
def summaryFilter : HierRet.Metadata := [("type", MVal.s "summary")]

/-- The fine-stage filter `{"source": doc_id, "type": "chunk"}`
(`retrievers.py`, line 77), in Python dict insertion order. -/
def chunkFilter (doc_id : MVal) : HierRet.Metadata :=
  [("source", doc_id), ("type", MVal.s "chunk")]

/-- The body of the fine-retrieval loop of
`MetadataHierarchicalRetriever.get_relevant_documents`
(`retrievers.py`, lines 69–83): read `source` from the summary hit's
metadata; when it is truthy, search chunks of that document, annotate each
with `parent_summary_score = summary_score`, and append; otherwise leave
the accumulator untouched.  The first component accumulates the store
calls issued. -/
def fineStep (vs : VectorStore) (n_chunks_per_doc : ℕ) (query : String)
    (acc : List StoreCall × List (Doc × ℚ)) (hit : Doc × ℚ) :
    List StoreCall × List (Doc × ℚ) :=
  let doc_id := getMeta hit.1.metadata "source"
  if doc_id.truthy then
    let fil := chunkFilter doc_id
    let chunks := vs.similarity_search_with_score query n_chunks_per_doc fil
    (acc.1 ++ [StoreCall.searchWithScore query n_chunks_per_doc fil],
     acc.2 ++ chunks.map (fun c =>
       (Doc.mk c.1.page_content
          (setMeta c.1.metadata "parent_summary_score" (MVal.q hit.2)),
        c.2)))
  else acc

/-- `MetadataHierarchicalRetriever.get_relevant_documents`
(`retrievers.py`, lines 49–85), instrumented: returns the trace of store
calls issued together with the returned list of `(Document, score)`
pairs.  Step 1 searches summaries (`k = n_docs`, filter
`{"type": "summary"}`); step 2 folds the fine-retrieval loop over the
coarse hits. -/
def get_relevant_documents (vs : VectorStore) (n_docs n_chunks_per_doc : ℕ)
    (query : String) : List StoreCall × List (Doc × ℚ) :=
  let summaries := vs.similarity_search_with_score query n_docs summaryFilter
  summaries.foldl (fineStep vs n_chunks_per_doc query)
    ([StoreCall.searchWithScore query n_docs summaryFilter], [])

/-- `MetadataHierarchicalRetriever.get_relevant_documents_simple`
(`retrievers.py`, lines 87–98): `[doc for doc, score in chunks_with_scores]`. -/
def get_relevant_documents_simple (vs : VectorStore)
    (n_docs n_chunks_per_doc : ℕ) (query : String) : List Doc :=
  let chunks_with_scores := get_relevant_documents vs n_docs n_chunks_per_doc query
  chunks_with_scores.2.map Prod.fst

/-- The fine-stage block a single coarse hit contributes, written after
the spec's merge-policy wording (§4.4): a coarse hit with a truthy
`source` contributes the store's chunk ranking for that document, each
chunk annotated with `parent_summary_score` equal to the coarse hit's
score; a hit without a usable `source` contributes nothing. -/
def fineStageBlock (vs : VectorStore) (n_chunks_per_doc : ℕ) (query : String)
    (hit : Doc × ℚ) : List (Doc × ℚ) :=
  let doc_id := getMeta hit.1.metadata "source"
  if doc_id.truthy then
    (vs.similarity_search_with_score query n_chunks_per_doc
        (chunkFilter doc_id)).map (fun c =>
      (Doc.mk c.1.page_content
         (setMeta c.1.metadata "parent_summary_score" (MVal.q hit.2)),
       c.2))
  else []

/-- The store calls a single coarse hit gives rise to in the fine stage. -/
def fineStageCalls (n_chunks_per_doc : ℕ) (query : String)
    (hit : Doc × ℚ) : List StoreCall :=
  let doc_id := getMeta hit.1.metadata "source"
  if doc_id.truthy then
    [StoreCall.searchWithScore query n_chunks_per_doc (chunkFilter doc_id)]
  else []

end MetadataHierarchicalRetriever

namespace HierarchicalRetriever

/-- The body of the fine-retrieval loop of the legacy
`HierarchicalRetriever.get_relevant_documents` (`retrievers.py`,
lines 16–21): always issues the fine search, with filter
`{"source": doc_id}` where `doc_id` may be `None`. -/
def fineStep (chunk_store : VectorStore) (n_chunks : ℕ) (query : String)
    (acc : List StoreCall × List (Doc × ℚ)) (doc : Doc) :
    List StoreCall × List (Doc × ℚ) :=
  let doc_id := getMeta doc.metadata "source"
  let fine := chunk_store.similarity_search_with_score query n_chunks
    [("source", doc_id)]
  (acc.1 ++ [StoreCall.searchWithScore query n_chunks [("source", doc_id)]],
   acc.2 ++ fine)

/-- Legacy `HierarchicalRetriever.get_relevant_documents`
(`retrievers.py`, lines 11–22), instrumented with its store-call trace:
coarse `similarity_search` on the doc store (no filter), then the fine
loop over every coarse hit. -/
def get_relevant_documents (doc_store chunk_store : VectorStore)
    (n_docs n_chunks : ℕ) (query : String) :
    List StoreCall × List (Doc × ℚ) :=
  let coarse := doc_store.similarity_search query n_docs Option.none
  coarse.foldl (fineStep chunk_store n_chunks query)
    ([StoreCall.search query n_docs Option.none], [])

end HierarchicalRetriever

/-! ### Pure string helpers

`pathlib.Path` accessors and substring search, re-implemented over
`List Char` so that concrete instances reduce inside the kernel. -/

/-- The characters of the last path component (`pathlib.Path(p).name`):
everything after the final `'/'`. -/
def lastComponent (cs : List Char) : List Char :=
  cs.foldl (fun acc c => if c == '/' then [] else acc ++ [c]) []

/-- Index of the last `'.'` in a character list (`str.rfind('.')`),
`none` when absent. -/
def rfindDot : List Char → Option ℕ
  | [] => none
  | c :: rest =>
    match rfindDot rest with
    | some i => some (i + 1)
    | none => if c == '.' then some 0 else none

/-- `str.lower()` restricted to ASCII, which is all this code compares. -/
def strLower (s : String) : String := String.mk (s.data.map Char.toLower)

/-- `pathlib.Path(p).name`: the final path component. -/
def pathName (p : String) : String := String.mk (lastComponent p.data)

/-- `pathlib.Path(p).suffix`: `name[i:]` for `i = name.rfind('.')` when
`0 < i < len(name) - 1`, else the empty string. -/
def pathSuffix (p : String) : String :=
  let name := lastComponent p.data
  match rfindDot name with
  | some i => if 0 < i ∧ i + 1 < name.length then String.mk (name.drop i) else ""
  | none => ""

/-- Whether the second list is a prefix of the first, by `==`. -/
def listStartsWith : List Char → List Char → Bool
  | _, [] => true
  | [], _ :: _ => false
  | a :: as, b :: bs => a == b && listStartsWith as bs

/-- Whether `pat` occurs as a contiguous substring of `hay`
(Python's `pat in hay`). -/
def listContainsSub : List Char → List Char → Bool
  | [], pat => listStartsWith [] pat
  | c :: rest, pat => listStartsWith (c :: rest) pat || listContainsSub rest pat

/-! ### `validate_file` (`app/embeddings.py`, lines 21–105) -/

/-- The filesystem facts `validate_file` inspects about its path, passed in
explicitly (the Python code reads them through `pathlib`/`os`/`magic`):
existence, regular-file-ness, byte size, the sniffed MIME type
(`none` models `magic` raising, e.g. python-magic unavailable), and
readability. -/
structure FileState where
  present : Bool
  is_file : Bool
  size : ℕ
  sniffed_mime : Option String
  readable : Bool
deriving DecidableEq, Repr

/-- The dict `validate_file` returns on success (lines 97–105).  The
`file_size_mb` entry — a float-rounded display duplicate of
`file_size_bytes` — is not modelled.  `file_path` is the path as given
(the source returns `str(path.absolute())`; absolutisation is outside the
model and irrelevant to every claim). -/
structure ValidationReport where
  valid : Bool
  file_path : String
  file_name : String
  file_size_bytes : ℕ
  file_extension : String
  mime_type : String
deriving DecidableEq, Repr

/-- The `allowed_extensions` set (line 59). -/
def allowed_extensions : List String := [".txt", ".md", ".pdf"]

/-- The `expected_mimes` table (lines 73–77). -/
def expected_mimes (ext : String) : Option (List String) :=
  if ext == ".txt" then some ["text/plain", "text/x-plain"]
  else if ext == ".md" then some ["text/plain", "text/markdown", "text/x-markdown"]
  else if ext == ".pdf" then some ["application/pdf"]
  else none

/-- The body of the `try` block of the MIME check (lines 68–83).  An
`Except.error` is a raised exception; its first component is the value the
`mime_type` variable holds at the moment of the raise (`"unknown"` while
sniffing itself fails, the sniffed type once sniffing succeeded), its
second the message.  A sniffing failure (`magic` raising) is the `none`
branch; a successful sniff whose result is outside the extension's
expected list raises `FileValidationError` (line 81). -/
def mimeTryBody (sniff : Option String) (ext : String) :
    Except (String × String) String :=
  match sniff with
  | none => Except.error ("unknown", "could not determine MIME type")
  | some m =>
    match expected_mimes ext with
    | some allowed =>
      if m ∈ allowed then Except.ok m
      else Except.error
        (m, "MIME type mismatch: file has extension " ++ ext ++
            " but MIME type is " ++ m)
    | none => Except.ok m

/-- Lines 66–86 as a whole: the `except Exception` clause (line 84)
catches every exception the `try` body raises — the sniffing failure AND
the `FileValidationError` raised on a MIME mismatch — prints a warning and
continues, leaving `mime_type` at whatever value it had.  Hence this step
never fails validation. -/
def mimeStep (sniff : Option String) (ext : String) : String :=
  match mimeTryBody sniff ext with
  | Except.ok m => m
  | Except.error e => e.1

/-- The `suspicious_patterns` list (line 89); the last entry is NUL. -/
def suspicious_patterns : List String :=
  ["..", "~", "$", "`", "|", ";", "&", String.mk [Char.ofNat 0]]

/-- `any(pattern in str(path) for pattern in suspicious_patterns)`
(line 90). -/
def hasSuspicious (path : String) : Bool :=
  suspicious_patterns.any (fun pat => listContainsSub path.data pat.data)

/-- `validate_file` (lines 21–105): the checks in source order —
existence, regular file, nonempty, size limit, allowed extension, the
(never-failing) MIME step, suspicious path characters, readability — with
each `raise FileValidationError(msg)` an `Except.error msg`. -/
def validate_file (file_path : String) (fs : FileState) (max_size_mb : ℕ) :
    Except String ValidationReport :=
  if fs.present = false then
    Except.error ("File does not exist: " ++ file_path)
  else if fs.is_file = false then
    Except.error ("Path is not a file: " ++ file_path)
  else
    let file_size := fs.size
    let max_size_bytes := max_size_mb * 1024 * 1024
    if file_size == 0 then Except.error "File is empty"
    else if max_size_bytes < file_size then Except.error "File too large"
    else
      let file_extension := strLower (pathSuffix file_path)
      if (allowed_extensions.contains file_extension) = false then
        Except.error ("Unsupported file type: " ++ file_extension)
      else
        let mime_type := mimeStep fs.sniffed_mime file_extension
        if hasSuspicious file_path then
          Except.error "Suspicious characters detected in file path"
        else if fs.readable = false then
          Except.error "File is not readable"
        else
          Except.ok (ValidationReport.mk true file_path (pathName file_path)
            file_size file_extension mime_type)

/-! ### `process_document` (`app/embeddings.py`, lines 108–148) -/

/-- What a successful `process_document` run produces: the record batches
handed to the two `add_documents` calls, tagged with the collection name
of the store they went to, plus the returned counters. -/
structure IngestOutcome where
  writes : List (String × List Doc)
  num_chunks : ℕ
  file_type : String
deriving DecidableEq, Repr

/-- `RecursiveCharacterTextSplitter.split_documents` at the granularity
the claims need: the character windowing itself is the abstract parameter
`splitter`, and each produced chunk carries an unmodified copy of its
source document's metadata (the langchain splitter copies metadata and,
with the default `add_start_index=False`, adds no key). -/
def split_documents (splitter : String → List String) (docs : List Doc) :
    List Doc :=
  (docs.map (fun d => (splitter d.page_content).map
    (fun t => Doc.mk t d.metadata))).flatten

/-- `process_document` (lines 108–148): validate, load (the loader's
output is the parameter `loaded`; for a `.txt` file `TextLoader` yields
one document with metadata `{"source": file_path}`), write the loaded
documents to the `"doc_level_embeddings"` store, split, write the split
documents to the `"chunk_level_embeddings"` store.  Store handles are
abstracted to the record batches written.  (In this source tree the calls
`get_vector_store("doc_level_embeddings")` cannot even succeed —
`vectorstore.get_vector_store` takes no argument — but that arity slip is
orthogonal to what the records would contain.)  The function adds no
`type` and no `chunk_index` metadata anywhere. -/
def process_document (file_path : String) (fs : FileState)
    (loaded : List Doc) (splitter : String → List String) :
    Except String IngestOutcome :=
  match validate_file file_path fs 50 with
  | Except.error e => Except.error e
  | Except.ok validation_result =>
    if validation_result.valid = false then Except.error "error"
    else
      let file_extension := strLower (pathSuffix file_path)
      if file_extension == ".txt" || file_extension == ".md" ||
          file_extension == ".pdf" then
        let documents := loaded
        let split_docs := split_documents splitter documents
        Except.ok (IngestOutcome.mk
          [("doc_level_embeddings", documents),
           ("chunk_level_embeddings", split_docs)]
          split_docs.length file_extension)
      else Except.error ("Unsupported file type: " ++ file_extension)

/-! ### `app/metadata_utils.py` -/

/-- The sort key of `get_document_chunks` (line 57):
`doc.metadata.get("chunk_index", 0)`, an integer in every record the
schema describes, defaulting to `0` when the key is absent. -/
def chunkIndexKey (d : Doc) : ℤ :=
  match getMeta d.metadata "chunk_index" with
  | MVal.i n => n
  | _ => 0

/-- Stable insertion for `sortByChunkIndex`: `d` goes after every element
with a strictly smaller key and before the first element whose key is not
smaller, so elements with equal keys keep their relative order. -/
def insertByKey (d : Doc) : List Doc → List Doc
  | [] => [d]
  | x :: xs =>
    if chunkIndexKey x < chunkIndexKey d then x :: insertByKey d xs
    else d :: x :: xs

/-- Python's stable `list.sort(key=lambda doc: doc.metadata.get("chunk_index", 0))`
(line 57), as a stable insertion sort: ascending by `chunkIndexKey`,
equal keys in original order. -/
def sortByChunkIndex (l : List Doc) : List Doc := l.foldr insertByKey []

/-- `get_document_chunks` (lines 39–59): fetch up to 1000 records with
`{"type": "chunk", "source": source_id}` and stable-sort them by
`chunk_index`. -/
def get_document_chunks (vs : VectorStore) (source_id : String) : List Doc :=
  let chunks := vs.similarity_search "" 1000
    (Option.some [("type", MVal.s "chunk"), ("source", MVal.s source_id)])
  sortByChunkIndex chunks

/-- The dict `reconstruct_document` returns (lines 81–86). -/
structure Reconstructed where
  source_id : String
  summary : Option Doc
  chunks : List Doc
  total_chunks : ℕ
deriving DecidableEq, Repr

/-- `reconstruct_document` (lines 62–86): one summary record for the
source (or `None`), plus the ordered chunks. -/
def reconstruct_document (vs : VectorStore) (source_id : String) :
    Reconstructed :=
  let summary_docs := vs.similarity_search "" 1
    (Option.some [("type", MVal.s "summary"), ("source", MVal.s source_id)])
  let chunks := get_document_chunks vs source_id
  Reconstructed.mk source_id summary_docs.head? chunks chunks.length

/-! ### A concrete store model

Used to instantiate theorems: a store over a fixed ranked record list that
honours equality filters and the requested result count, as the vector
store capability promises (spec §6). -/

/-- Equality-filter match: every `(key, value)` pair of the filter agrees
with the record's metadata. -/
def matchesFilter (d : Doc) (f : Metadata) : Bool :=
  f.all (fun p => getMeta d.metadata p.1 == p.2)

/-- A vector store over a fixed ranked list of scored records: a search
returns the records matching the filter, in list (= rank) order,
truncated to `k`. -/
def storeOf (records : List (Doc × ℚ)) : VectorStore :=
  VectorStore.mk
    (fun _ k f => ((records.map Prod.fst).filter (fun d =>
        match f with
        | some fl => matchesFilter d fl
        | none => true)).take k)
    (fun _ k f => (records.filter (fun r => matchesFilter r.1 f)).take k)

/-! ### Helper lemmas -/

theorem getMeta_cons (pk : String) (pv : MVal) (rest : Metadata)
    (k : String) :
    getMeta ((pk, pv) :: rest) k = if pk == k then pv else getMeta rest k := by
  simp only [getMeta, List.find?]
  cases h : pk == k <;> simp [h]

theorem getMeta_setMeta_self (md : Metadata) (k : String) (v : MVal) :
    getMeta (setMeta md k v) k = v := by
  induction md with
  | nil => simp [setMeta, getMeta_cons]
  | cons p rest ih =>
    rcases p with ⟨pk, pv⟩
    by_cases h : pk = k
    · simp [setMeta, h, getMeta_cons]
    · simp [setMeta, h, getMeta_cons, ih]

theorem getMeta_setMeta_ne (md : Metadata) (k k' : String) (v : MVal)
    (h : k ≠ k') : getMeta (setMeta md k v) k' = getMeta md k' := by
  induction md with
  | nil => simp [setMeta, getMeta_cons, getMeta, h]
  | cons p rest ih =>
    rcases p with ⟨pk, pv⟩
    by_cases hp : pk = k
    · subst hp
      simp [setMeta, getMeta_cons, h]
    · simp [setMeta, hp, getMeta_cons, ih]

namespace MetadataHierarchicalRetriever

theorem fineStep_eq (vs : VectorStore) (nc : ℕ) (q : String)
    (acc : List StoreCall × List (Doc × ℚ)) (hit : Doc × ℚ) :
    fineStep vs nc q acc hit =
      (acc.1 ++ fineStageCalls nc q hit, acc.2 ++ fineStageBlock vs nc q hit) := by
  unfold fineStep fineStageCalls fineStageBlock
  by_cases h : (getMeta hit.1.metadata "source").truthy
  · simp [h]
  · simp [h]

theorem foldl_fineStep (vs : VectorStore) (nc : ℕ) (q : String)
    (l : List (Doc × ℚ)) (a : List StoreCall) (b : List (Doc × ℚ)) :
    l.foldl (fineStep vs nc q) (a, b) =
      (a ++ (l.map (fineStageCalls nc q)).flatten,
       b ++ (l.map (fineStageBlock vs nc q)).flatten) := by
  induction l generalizing a b with
  | nil => simp
  | cons x xs ih =>
    rw [List.foldl_cons, fineStep_eq, ih]
    simp

/-- The foldl of the fine loop, in closed form: the trace is the coarse
call followed by the fine calls in coarse-hit order; the result is the
concatenation of the fine-stage blocks in coarse-hit order. -/
theorem get_relevant_documents_eq (vs : VectorStore) (nd nc : ℕ)
    (q : String) :
    get_relevant_documents vs nd nc q =
      (StoreCall.searchWithScore q nd summaryFilter ::
         ((vs.similarity_search_with_score q nd summaryFilter).map
           (fineStageCalls nc q)).flatten,
       ((vs.similarity_search_with_score q nd summaryFilter).map
         (fineStageBlock vs nc q)).flatten) := by
  unfold get_relevant_documents
  rw [foldl_fineStep]
  simp

/-- The returned result list, in closed form: the concatenation of the
fine-stage blocks in coarse-hit order. -/
theorem result_eq_flatten (vs : VectorStore) (nd nc : ℕ) (q : String) :
    (get_relevant_documents vs nd nc q).2 =
      ((vs.similarity_search_with_score q nd summaryFilter).map
        (fineStageBlock vs nc q)).flatten := by
  rw [get_relevant_documents_eq]

/-- The issued store calls, in closed form: the coarse summary search
followed by the fine chunk searches in coarse-hit order. -/
theorem trace_eq (vs : VectorStore) (nd nc : ℕ) (q : String) :
    (get_relevant_documents vs nd nc q).1 =
      StoreCall.searchWithScore q nd summaryFilter ::
        ((vs.similarity_search_with_score q nd summaryFilter).map
          (fineStageCalls nc q)).flatten := by
  rw [get_relevant_documents_eq]

theorem fineStageBlock_length_le (vs : VectorStore) (nc : ℕ) (q : String)
    (hit : Doc × ℚ)
    (h : (vs.similarity_search_with_score q nc
      (chunkFilter (getMeta hit.1.metadata "source"))).length ≤ nc) :
    (fineStageBlock vs nc q hit).length ≤ nc := by
  unfold fineStageBlock
  by_cases ht : (getMeta hit.1.metadata "source").truthy
  · simpa [ht] using h
  · simp [ht]

/-- Every element of a fine-stage block is a store chunk hit for the
hit's document, annotated with the hit's summary score. -/
theorem mem_fineStageBlock (vs : VectorStore) (nc : ℕ) (q : String)
    (hit : Doc × ℚ) (r : Doc × ℚ) (hr : r ∈ fineStageBlock vs nc q hit) :
    ∃ c ∈ vs.similarity_search_with_score q nc
        (chunkFilter (getMeta hit.1.metadata "source")),
      r = (Doc.mk c.1.page_content
            (setMeta c.1.metadata "parent_summary_score" (MVal.q hit.2)),
           c.2) ∧
      (getMeta hit.1.metadata "source").truthy = true := by
  unfold fineStageBlock at hr
  by_cases ht : (getMeta hit.1.metadata "source").truthy
  · simp only [ht, if_true] at hr
    rw [List.mem_map] at hr
    obtain ⟨c, hc, hre⟩ := hr
    exact ⟨c, hc, hre.symm, ht⟩
  · simp [ht] at hr

end MetadataHierarchicalRetriever

theorem storeOf_score_len (records : List (Doc × ℚ)) (q : String) (k : ℕ)
    (f : Metadata) :
    ((storeOf records).similarity_search_with_score q k f).length ≤ k := by
  simp [storeOf]

theorem storeOf_score_mem (records : List (Doc × ℚ)) (q : String) (k : ℕ)
    (f : Metadata) (r : Doc × ℚ)
    (h : r ∈ (storeOf records).similarity_search_with_score q k f) :
    matchesFilter r.1 f = true := by
  simp only [storeOf] at h
  have h2 := List.mem_of_mem_take h
  exact (List.mem_filter.mp h2).2

/-! ### Concrete instances

Inputs used to instantiate the theorems: an ingestion run of an uploaded
text file, and small populated stores for the retrieval claims. -/

/-- The path of an uploaded text file, as `main.py` saves it. -/
def demoPath : String := "/uploads/test.txt"

/-- Its filesystem facts: exists, regular, 1200 bytes, sniffed as plain
text, readable. -/
def demoFS : FileState :=
  FileState.mk true true 1200 (Option.some "text/plain") true

/-- Its (abbreviated) normalized text. -/
def demoText : String := "AAAA BBBB CCCC"

/-- What `TextLoader` yields for this file: one document whose metadata
is `{"source": file_path}`. -/
def demoLoaded : List Doc := [Doc.mk demoText [("source", MVal.s demoPath)]]

/-- A concrete windowing standing in for the recursive splitter's output
on the 1200-character text: three overlapping spans (the windowing itself
is the abstract `splitter` parameter of the embedding). -/
def demoSplitter : String → List String := fun _ => ["span0", "span1", "span2"]

/-- The outcome `process_document` produces on this input. -/
def demoOutcome : IngestOutcome := IngestOutcome.mk
  [("doc_level_embeddings", demoLoaded),
   ("chunk_level_embeddings", split_documents demoSplitter demoLoaded)]
  3 ".txt"

/-- A store holding exactly the records this ingestion run wrote (both
collections merged — the most charitable reading for a follow-up
`reconstruct_document`), ranked arbitrarily. -/
def demoIngestStore : VectorStore :=
  storeOf ((demoLoaded ++ split_documents demoSplitter demoLoaded).map
    (fun d => (d, 0)))

/-- A well-formed hierarchical store: two documents with tagged summary
and chunk records, ranked by ascending distance. -/
def demoRecords : List (Doc × ℚ) :=
  [(Doc.mk "Summary 1"
      [("source", MVal.s "doc1.txt"), ("type", MVal.s "summary")], 1),
   (Doc.mk "Summary 2"
      [("source", MVal.s "doc2.txt"), ("type", MVal.s "summary")], 2),
   (Doc.mk "Chunk 1"
      [("source", MVal.s "doc1.txt"), ("type", MVal.s "chunk"),
       ("chunk_index", MVal.i 0)], 3),
   (Doc.mk "Chunk 2"
      [("source", MVal.s "doc1.txt"), ("type", MVal.s "chunk"),
       ("chunk_index", MVal.i 1)], 4),
   (Doc.mk "Chunk 3"
      [("source", MVal.s "doc2.txt"), ("type", MVal.s "chunk"),
       ("chunk_index", MVal.i 0)], 5)]

def demoStore : VectorStore := storeOf demoRecords

/-- A coarse hit whose summary record has no `source` metadata. -/
def nosrcHit : Doc × ℚ :=
  (Doc.mk "Summary without source" [("type", MVal.s "summary")], 1)

/-- A store whose only record is the summary without `source`. -/
def nosrcStore : VectorStore := storeOf [nosrcHit]

/-- Legacy-variant stores: the doc store returns one document without
`source` metadata; the chunk store holds one record (with no `source`
key, so it matches the filter `{"source": None}`). -/
def legacyDocStore : VectorStore :=
  storeOf [(Doc.mk "Doc without source" [], 1)]

def legacyChunkStore : VectorStore :=
  storeOf [(Doc.mk "stray chunk" [], 2)]

/-- Decidable equality on `Except`, so concrete runs of the embedded
fallible functions can be checked by `decide`. -/
instance {ε α : Type} [DecidableEq ε] [DecidableEq α] :
    DecidableEq (Except ε α) := fun x y =>
  match x, y with
  | Except.ok a, Except.ok b =>
    if h : a = b then isTrue (by rw [h])
    else isFalse (by intro hc; injection hc; contradiction)
  | Except.error a, Except.error b =>
    if h : a = b then isTrue (by rw [h])
    else isFalse (by intro hc; injection hc; contradiction)
  | Except.ok _, Except.error _ => isFalse (by intro hc; injection hc)
  | Except.error _, Except.ok _ => isFalse (by intro hc; injection hc)

/-! ### The claims -/

/-- Claim C1.  The claim says every record `process_document` writes
carries `type ∈ {"summary", "chunk"}`.  Evaluating the embedded pipeline
on a concrete valid text file shows the opposite: ingestion succeeds,
two batches are written (the loaded documents and the split documents),
and every single written record has NO `type` metadata at all
(`metadata.get("type")` is `None`).  This contradicts the repository's
own tests (`test_document_chunking` asserts `type == "chunk"` and a
`chunk_index` key on the written chunks), so the code, not the claim, is
wrong. -/
theorem claim1_ingest_writes_lack_type_metadata :
    process_document demoPath demoFS demoLoaded demoSplitter =
      Except.ok demoOutcome ∧
    demoOutcome.writes.length = 2 ∧
    (demoOutcome.writes.map (fun b => b.2.length)).sum = 4 ∧
    ∀ b ∈ demoOutcome.writes, ∀ d ∈ b.2,
      getMeta d.metadata "type" = MVal.null := by
  decide

/-- Claim C2.  The claim says the stored chunk records of a document
carry `chunk_index` values exactly `0..count-1`.  Evaluating the embedded
pipeline: the chunk batch has as many records as the splitter produced
spans (3), but every chunk record lacks the `chunk_index` key entirely,
so the index set is empty rather than `{0, 1, 2}`.  Again the
repository's own test (`test_document_chunking`) asserts the key is
present: the code is the slip. -/
theorem claim2_chunk_index_metadata_absent :
    process_document demoPath demoFS demoLoaded demoSplitter =
      Except.ok demoOutcome ∧
    demoOutcome.num_chunks = (demoSplitter demoText).length ∧
    (demoSplitter demoText).length = 3 ∧
    ∀ d ∈ split_documents demoSplitter demoLoaded,
      getMeta d.metadata "chunk_index" = MVal.null := by
  decide

/-- Claim C8.  Round-trip after ingestion: the pipeline stored 3 chunk
records under the document's `source_id`, yet `reconstruct_document`
(which filters on `type = "chunk"`, a key the pipeline never writes)
returns 0 chunks and no summary.  The round-trip the spec states fails
on this code because ingestion writes untagged records. -/
theorem claim8_reconstruct_roundtrip_fails :
    (split_documents demoSplitter demoLoaded).length = 3 ∧
    (∀ d ∈ split_documents demoSplitter demoLoaded,
       getMeta d.metadata "source" = MVal.s demoPath) ∧
    (reconstruct_document demoIngestStore demoPath).total_chunks = 0 ∧
    (reconstruct_document demoIngestStore demoPath).summary = Option.none := by
  decide

/-- Claim C5.  The claim says `validate` fails with `TypeMismatch` when
sniffing succeeded and disagreed with the extension.  It never does: the
`raise FileValidationError("MIME type mismatch …")` sits inside the same
`try` block whose `except Exception` clause catches it, so the mismatch
degrades to a printed warning.  Concretely, for a `.pdf` file sniffed as
`text/plain` the try-body raises the mismatch error (first conjunct), yet
`validate_file` returns a successful report carrying the disagreeing MIME
type (second conjunct).  The dead `raise` shows the intent the spec
records; the swallowing `except` is the slip. -/
theorem claim5_mime_mismatch_swallowed :
    mimeTryBody (Option.some "text/plain") ".pdf" =
      Except.error ("text/plain",
        "MIME type mismatch: file has extension .pdf but MIME type is text/plain") ∧
    validate_file "/uploads/fake.pdf"
        (FileState.mk true true 100 (Option.some "text/plain") true) 50 =
      Except.ok (ValidationReport.mk true "/uploads/fake.pdf" "fake.pdf"
        100 ".pdf" "text/plain") := by
  decide

/-- Claim C6, counterexample.  The claim says a suspicious path fails
with `UnsafePath` regardless of size — in particular for an empty file.
But the size check precedes the suspicious-pattern check: an empty file
named `evil;rm -rf.txt` fails with "File is empty", not with the
suspicious-path error. -/
theorem claim6_counterexample :
    validate_file "/uploads/evil;rm -rf.txt"
        (FileState.mk true true 0 Option.none true) 50 =
      Except.error "File is empty" ∧
    validate_file "/uploads/evil;rm -rf.txt"
        (FileState.mk true true 0 Option.none true) 50 ≠
      Except.error "Suspicious characters detected in file path" := by
  decide

/-- Claim C6, amended: for every file whose path contains a suspicious
pattern AND that passes the checks ordered before the pattern check
(existence, regular file, nonempty, within the size limit, supported
extension — the MIME step cannot fail), `validate_file` fails with the
suspicious-path error, regardless of content, sniffing outcome and
readability. -/
theorem claim6_amended_unsafe_path (path : String) (fs : FileState)
    (msz : ℕ) (hp : fs.present = true) (hf : fs.is_file = true)
    (h0 : fs.size ≠ 0) (hs : fs.size ≤ msz * 1024 * 1024)
    (he : allowed_extensions.contains (strLower (pathSuffix path)) = true)
    (hsus : hasSuspicious path = true) :
    validate_file path fs msz =
      Except.error "Suspicious characters detected in file path" := by
  have he' : strLower (pathSuffix path) ∈ allowed_extensions := by
    simpa using he
  simp [validate_file, hp, hf, h0, he', hsus, Nat.not_lt.mpr hs]

/-- Witness for the amended C6 at a concrete input: a nonempty readable
text file named `evil;rm -rf.txt`. -/
theorem claim6_amended_witness :
    ((FileState.mk true true 10 (Option.some "text/plain") true).present
        = true) ∧
    ((FileState.mk true true 10 (Option.some "text/plain") true).is_file
        = true) ∧
    ((FileState.mk true true 10 (Option.some "text/plain") true).size ≠ 0) ∧
    ((FileState.mk true true 10 (Option.some "text/plain") true).size ≤
        50 * 1024 * 1024) ∧
    (allowed_extensions.contains
        (strLower (pathSuffix "/uploads/evil;rm -rf.txt")) = true) ∧
    (hasSuspicious "/uploads/evil;rm -rf.txt" = true) ∧
    validate_file "/uploads/evil;rm -rf.txt"
        (FileState.mk true true 10 (Option.some "text/plain") true) 50 =
      Except.error "Suspicious characters detected in file path" :=
  ⟨by decide, by decide, by decide, by decide, by decide, by decide,
   claim6_amended_unsafe_path "/uploads/evil;rm -rf.txt"
     (FileState.mk true true 10 (Option.some "text/plain") true) 50
     (by decide) (by decide) (by decide) (by decide) (by decide) (by decide)⟩

open MetadataHierarchicalRetriever in
/-- Claim C3: when the store returns at most `k` hits per search
(`hcoarse`, `hfine`) and honours the `source` equality filter of the fine
searches (`hscope`), every `retrieve(query, n_docs, n_chunks_per_doc)`
result has length at most `n_docs * n_chunks_per_doc`, and every returned
record's `source` equals the `source` of one of the coarse summary
hits. -/
theorem claim3_length_and_scope (vs : VectorStore) (nd nc : ℕ) (q : String)
    (hcoarse : (vs.similarity_search_with_score q nd summaryFilter).length ≤ nd)
    (hfine : ∀ hit ∈ vs.similarity_search_with_score q nd summaryFilter,
      (vs.similarity_search_with_score q nc
        (chunkFilter (getMeta hit.1.metadata "source"))).length ≤ nc)
    (hscope : ∀ hit ∈ vs.similarity_search_with_score q nd summaryFilter,
      ∀ r ∈ vs.similarity_search_with_score q nc
          (chunkFilter (getMeta hit.1.metadata "source")),
        getMeta r.1.metadata "source" = getMeta hit.1.metadata "source") :
    ((get_relevant_documents vs nd nc q).2).length ≤ nd * nc ∧
    ∀ r ∈ (get_relevant_documents vs nd nc q).2,
      ∃ hit ∈ vs.similarity_search_with_score q nd summaryFilter,
        getMeta r.1.metadata "source" = getMeta hit.1.metadata "source" := by
  rw [result_eq_flatten]
  constructor
  · rw [List.length_flatten, List.map_map]
    have hb : ∀ x ∈ (vs.similarity_search_with_score q nd summaryFilter).map
        (List.length ∘ fineStageBlock vs nc q), x ≤ nc := by
      intro x hx
      rw [List.mem_map] at hx
      obtain ⟨hit, hhit, hxe⟩ := hx
      rw [← hxe]
      exact fineStageBlock_length_le vs nc q hit (hfine hit hhit)
    calc ((vs.similarity_search_with_score q nd summaryFilter).map
            (List.length ∘ fineStageBlock vs nc q)).sum
        ≤ ((vs.similarity_search_with_score q nd summaryFilter).map
            (List.length ∘ fineStageBlock vs nc q)).length * nc := by
          simpa [smul_eq_mul] using
            List.sum_le_card_nsmul ((vs.similarity_search_with_score q nd
              summaryFilter).map (List.length ∘ fineStageBlock vs nc q)) nc hb
      _ ≤ nd * nc := by
          rw [List.length_map]
          exact Nat.mul_le_mul_right nc hcoarse
  · intro r hr
    rw [List.mem_flatten] at hr
    obtain ⟨bl, hbl, hrbl⟩ := hr
    rw [List.mem_map] at hbl
    obtain ⟨hit, hhit, hble⟩ := hbl
    rw [← hble] at hrbl
    obtain ⟨c, hc, hre, ht⟩ := mem_fineStageBlock vs nc q hit r hrbl
    subst hre
    refine ⟨hit, hhit, ?_⟩
    have hne : ("parent_summary_score" : String) ≠ "source" := by decide
    rw [show (Doc.mk c.1.page_content (setMeta c.1.metadata
          "parent_summary_score" (MVal.q hit.2)), c.2).1.metadata =
        setMeta c.1.metadata "parent_summary_score" (MVal.q hit.2) from rfl,
      getMeta_setMeta_ne c.1.metadata "parent_summary_score" "source"
        (MVal.q hit.2) hne]
    exact hscope hit hhit c hc

open MetadataHierarchicalRetriever in
/-- Witness for C3 at a concrete populated store: two documents with two
and one chunks, `n_docs = n_chunks_per_doc = 2`. -/
theorem claim3_witness :
    ((demoStore.similarity_search_with_score "q" 2 summaryFilter).length ≤ 2) ∧
    (∀ hit ∈ demoStore.similarity_search_with_score "q" 2 summaryFilter,
      (demoStore.similarity_search_with_score "q" 2
        (chunkFilter (getMeta hit.1.metadata "source"))).length ≤ 2) ∧
    (∀ hit ∈ demoStore.similarity_search_with_score "q" 2 summaryFilter,
      ∀ r ∈ demoStore.similarity_search_with_score "q" 2
          (chunkFilter (getMeta hit.1.metadata "source")),
        getMeta r.1.metadata "source" = getMeta hit.1.metadata "source") ∧
    (((get_relevant_documents demoStore 2 2 "q").2).length ≤ 2 * 2 ∧
     ∀ r ∈ (get_relevant_documents demoStore 2 2 "q").2,
       ∃ hit ∈ demoStore.similarity_search_with_score "q" 2 summaryFilter,
         getMeta r.1.metadata "source" = getMeta hit.1.metadata "source") :=
  ⟨by decide, by decide, by decide,
   claim3_length_and_scope demoStore 2 2 "q" (by decide) (by decide) (by decide)⟩

open MetadataHierarchicalRetriever in
/-- Claim C4: the retrieval result is exactly the concatenation, in
coarse-hit order, of the per-document fine-stage blocks
(`fineStageBlock`, written after the spec's merge-policy wording: the
store's own chunk-level ranking for each document, order and scores
untouched, no global re-sort), and inside each block every chunk carries
`parent_summary_score` equal to its coarse hit's distance score. -/
theorem claim4_merge_policy (vs : VectorStore) (nd nc : ℕ) (q : String) :
    (get_relevant_documents vs nd nc q).2 =
      ((vs.similarity_search_with_score q nd summaryFilter).map
        (fineStageBlock vs nc q)).flatten ∧
    ∀ hit ∈ vs.similarity_search_with_score q nd summaryFilter,
      ∀ r ∈ fineStageBlock vs nc q hit,
        getMeta r.1.metadata "parent_summary_score" = MVal.q hit.2 := by
  refine ⟨result_eq_flatten vs nd nc q, ?_⟩
  intro hit hhit r hr
  obtain ⟨c, hc, hre, ht⟩ := mem_fineStageBlock vs nc q hit r hr
  subst hre
  exact getMeta_setMeta_self c.1.metadata "parent_summary_score" (MVal.q hit.2)

open MetadataHierarchicalRetriever in
/-- Claim C9, amended: the simple accessor returns exactly the `Document`
components of the full retrieval result, in the same order, with the
distance scores stripped — but the `parent_summary_score` annotation is
NOT stripped: every returned record still carries it. -/
theorem claim9_amended_simple_strips_scores_only (vs : VectorStore)
    (nd nc : ℕ) (q : String) :
    get_relevant_documents_simple vs nd nc q =
      ((get_relevant_documents vs nd nc q).2).map Prod.fst ∧
    ∀ d ∈ get_relevant_documents_simple vs nd nc q,
      ∃ s : ℚ, getMeta d.metadata "parent_summary_score" = MVal.q s := by
  refine ⟨rfl, ?_⟩
  intro d hd
  have hd' : d ∈ ((get_relevant_documents vs nd nc q).2).map Prod.fst := hd
  rw [List.mem_map] at hd'
  obtain ⟨r, hr, hre⟩ := hd'
  rw [result_eq_flatten, List.mem_flatten] at hr
  obtain ⟨bl, hbl, hrbl⟩ := hr
  rw [List.mem_map] at hbl
  obtain ⟨hit, hhit, hble⟩ := hbl
  rw [← hble] at hrbl
  obtain ⟨c, hc, hrc, ht⟩ := mem_fineStageBlock vs nc q hit r hrbl
  subst hrc
  rw [← hre]
  exact ⟨hit.2, getMeta_setMeta_self c.1.metadata "parent_summary_score"
    (MVal.q hit.2)⟩

open MetadataHierarchicalRetriever in
/-- Claim C9, counterexample to the claim as stated: on a populated
store the simple accessor's output is nonempty and every returned record
DOES carry a `parent_summary_score` annotation (value: the coarse hit's
score 1), refuting "each returned record is free of any
parent_summary_score annotation". -/
theorem claim9_counterexample :
    get_relevant_documents_simple demoStore 1 1 "q" ≠ [] ∧
    ∀ d ∈ get_relevant_documents_simple demoStore 1 1 "q",
      getMeta d.metadata "parent_summary_score" = MVal.q 1 := by
  decide

open MetadataHierarchicalRetriever in
/-- Claim C10: retrieval only ever issues read-only similarity searches
(never a write), and each returned record is a store result object whose
metadata got the `parent_summary_score` key set, every other metadata
key, the page content and the chunk score left unchanged. -/
theorem claim10_read_only_frame (vs : VectorStore) (nd nc : ℕ) (q : String) :
    (∀ c ∈ (get_relevant_documents vs nd nc q).1, c.isReadOnly = true) ∧
    ∀ r ∈ (get_relevant_documents vs nd nc q).2,
      ∃ hit ∈ vs.similarity_search_with_score q nd summaryFilter,
        ∃ c ∈ vs.similarity_search_with_score q nc
            (chunkFilter (getMeta hit.1.metadata "source")),
          r.1.page_content = c.1.page_content ∧ r.2 = c.2 ∧
          r.1.metadata =
            setMeta c.1.metadata "parent_summary_score" (MVal.q hit.2) ∧
          getMeta r.1.metadata "parent_summary_score" = MVal.q hit.2 ∧
          ∀ key : String, key ≠ "parent_summary_score" →
            getMeta r.1.metadata key = getMeta c.1.metadata key := by
  constructor
  · intro c hc
    rw [trace_eq] at hc
    rcases List.mem_cons.mp hc with h | h
    · rw [h]; rfl
    · rw [List.mem_flatten] at h
      obtain ⟨bl, hbl, hcbl⟩ := h
      rw [List.mem_map] at hbl
      obtain ⟨hit, hhit, hble⟩ := hbl
      rw [← hble] at hcbl
      unfold fineStageCalls at hcbl
      by_cases ht : (getMeta hit.1.metadata "source").truthy
      · simp only [ht, if_true, List.mem_singleton] at hcbl
        rw [hcbl]; rfl
      · simp [ht] at hcbl
  · intro r hr
    rw [result_eq_flatten, List.mem_flatten] at hr
    obtain ⟨bl, hbl, hrbl⟩ := hr
    rw [List.mem_map] at hbl
    obtain ⟨hit, hhit, hble⟩ := hbl
    rw [← hble] at hrbl
    obtain ⟨c, hc, hrc, ht⟩ := mem_fineStageBlock vs nc q hit r hrbl
    subst hrc
    refine ⟨hit, hhit, c, hc, rfl, rfl, rfl,
      getMeta_setMeta_self c.1.metadata "parent_summary_score" (MVal.q hit.2),
      ?_⟩
    intro key hkey
    exact getMeta_setMeta_ne c.1.metadata "parent_summary_score" key
      (MVal.q hit.2) (fun h => hkey h.symm)

open MetadataHierarchicalRetriever in
/-- Claim C7, amended: for `MetadataHierarchicalRetriever` the claim
holds — a coarse hit without a truthy `source` contributes an empty
fine-stage block and no fine-stage call, the result is exactly the
concatenation of the per-hit blocks (so such a hit contributes zero
entries), retrieval is total (never fails), and no issued search carries
a `source` filter bound to a non-truthy value.  (The legacy
`HierarchicalRetriever` does NOT skip: see the counterexample.) -/
theorem claim7_amended_no_source_skipped (vs : VectorStore) (nd nc : ℕ)
    (q : String) (hit : Doc × ℚ)
    (hsrc : (getMeta hit.1.metadata "source").truthy = false) :
    fineStageBlock vs nc q hit = [] ∧
    fineStageCalls nc q hit = [] ∧
    (get_relevant_documents vs nd nc q).2 =
      ((vs.similarity_search_with_score q nd summaryFilter).map
        (fineStageBlock vs nc q)).flatten ∧
    ∀ c ∈ (get_relevant_documents vs nd nc q).1,
      ∀ q' k f, c = StoreCall.searchWithScore q' k f →
        ∀ v, ("source", v) ∈ f → v.truthy = true := by
  refine ⟨?_, ?_, result_eq_flatten vs nd nc q, ?_⟩
  · unfold fineStageBlock
    simp [hsrc]
  · unfold fineStageCalls
    simp [hsrc]
  · intro c hc q' k f hcf v hv
    rw [trace_eq] at hc
    rcases List.mem_cons.mp hc with h | h
    · rw [h] at hcf
      injection hcf with h1 h2 h3
      rw [← h3, summaryFilter, List.mem_singleton] at hv
      have hst : ("source" : String) = "type" := congrArg Prod.fst hv
      exact absurd hst (by decide)
    · rw [List.mem_flatten] at h
      obtain ⟨bl, hbl, hcbl⟩ := h
      rw [List.mem_map] at hbl
      obtain ⟨hit', hhit', hble⟩ := hbl
      rw [← hble] at hcbl
      unfold fineStageCalls at hcbl
      by_cases ht : (getMeta hit'.1.metadata "source").truthy
      · simp only [ht, if_true, List.mem_singleton] at hcbl
        rw [hcbl] at hcf
        injection hcf with h1 h2 h3
        rw [← h3, chunkFilter] at hv
        rcases List.mem_cons.mp hv with he | he
        · have hv2 : v = getMeta hit'.1.metadata "source" :=
            congrArg Prod.snd he
          rw [hv2]
          exact ht
        · rw [List.mem_singleton] at he
          have hst : ("source" : String) = "type" := congrArg Prod.fst he
          exact absurd hst (by decide)
      · simp [ht] at hcbl

open MetadataHierarchicalRetriever in
/-- Witness for the amended C7: the single-record store whose only
summary has no `source` metadata, `n_docs = n_chunks_per_doc = 1`. -/
theorem claim7_amended_witness :
    ((getMeta nosrcHit.1.metadata "source").truthy = false) ∧
    (fineStageBlock nosrcStore 1 "q" nosrcHit = [] ∧
     fineStageCalls 1 "q" nosrcHit = [] ∧
     (get_relevant_documents nosrcStore 1 1 "q").2 =
       ((nosrcStore.similarity_search_with_score "q" 1 summaryFilter).map
         (fineStageBlock nosrcStore 1 "q")).flatten ∧
     ∀ c ∈ (get_relevant_documents nosrcStore 1 1 "q").1,
       ∀ q' k f, c = StoreCall.searchWithScore q' k f →
         ∀ v, ("source", v) ∈ f → v.truthy = true) :=
  ⟨by decide,
   claim7_amended_no_source_skipped nosrcStore 1 1 "q" nosrcHit (by decide)⟩

/-- Claim C7, counterexample to "this holds for both retriever
variants": the legacy `HierarchicalRetriever` does not skip a coarse hit
without `source` metadata — it issues the fine-stage search with filter
`{"source": None}` (the call appears in the trace) and extends its result
with whatever that search returns (here one stray record), which the
repository's own test (`test_get_relevant_documents_missing_source_metadata`,
"Should still attempt to search with None as source") confirms is the
legacy behaviour. -/
theorem claim7_counterexample :
    StoreCall.searchWithScore "q" 5 [("source", MVal.null)] ∈
      (HierarchicalRetriever.get_relevant_documents legacyDocStore
        legacyChunkStore 3 5 "q").1 ∧
    (HierarchicalRetriever.get_relevant_documents legacyDocStore
        legacyChunkStore 3 5 "q").2 =
      [(Doc.mk "stray chunk" [], 2)] := by
  decide

end HierRet
